import Mathlib

/-!
Verification development for the stock-portfolio-tracker backend.

This file gives a shallow embedding, in Lean 4, of the alerting and
quote-ingestion core of the backend (`app/monitor/price_checker.py`,
`app/monitor/stock_monitor.py`, `app/market/dynamic_subscription.py`,
`app/market/fugle_ws_client.py`, `app/market/finnhub_ws_client.py`) and
proves properties of the embedded definitions.

Modelling conventions:
* Python floats are modelled by `ℚ` (real-number semantics; floating-point
  rounding is abstracted away).
* Python `dict.get` lookups are modelled by `Option`-valued functions or
  `Option`-typed structure fields; a missing key is `none`.
* Python truthiness in `x or default` expressions (where `None` and `0`
  are both falsy) is modelled by the helpers `pyOr` / `pyOrOpt` / `pyOrStr`.
* Wall-clock timestamps are modelled by `ℚ` (minutes); `datetime.now()`
  becomes an explicit `now` parameter.
* Human-readable message strings (the `details` field of alerts and log
  output) are not modelled: no claim concerns them.
-/

namespace Tracker

/-- Python `x or d` for an optional number `x`: `None` and `0` are falsy. -/
def pyOr (x : Option ℚ) (d : ℚ) : ℚ :=
  match x with
  | none => d
  | some v => if v = 0 then d else v

/-- Python `x or y` for two optional numbers: `None` and `0` are falsy. -/
def pyOrOpt (x y : Option ℚ) : Option ℚ :=
  match x with
  | none => y
  | some v => if v = 0 then y else some v

/-- Python `x or d` for an optional string `x`: `None` and `""` are falsy. -/
def pyOrStr (x : Option String) (d : String) : String :=
  match x with
  | none => d
  | some s => if s = "" then d else s

/-- A map from ticker symbol to current price, modelling the Python dict
`current_prices: {ticker: current_price}` (`price_checker.py`). -/
def Prices := String → Option ℚ

/-- A map from ticker symbol to stock name, modelling the optional
`name_map` argument of `check_advisory_alerts`. -/
def NameMap := String → Option String

/-- A triggered price alert: the `AlertEvent` dataclass of
`price_checker.py` (the human-readable `details` string is not modelled). -/
structure AlertEvent where
  user_id : String
  ticker : String
  stock_name : String
  alert_type : String
  trigger_price : ℚ
  current_price : ℚ
  strategy_notes : String
deriving DecidableEq, Repr

/-- One row of the `price_targets` table as read by
`check_advisory_alerts`: threshold fields are optional (may be NULL). -/
structure PriceTarget where
  user_id : String
  ticker : String
  is_latest : Bool
  defense_price : Option ℚ
  min_target_low : Option ℚ
  min_target_high : Option ℚ
  reasonable_target_low : Option ℚ
  reasonable_target_high : Option ℚ
  strategy_notes : String
deriving DecidableEq, Repr

/-- Defense-price block of the `check_advisory_alerts` loop body
(`price_checker.py` lines 75-87): fires when `current <= defense`. -/
def defenseAlerts (current : ℚ) (name : String) (t : PriceTarget) : List AlertEvent :=
  match t.defense_price with
  | none => []
  | some d =>
    if current ≤ d then
      [{ user_id := t.user_id, ticker := t.ticker, stock_name := name,
         alert_type := "defense_breach", trigger_price := d,
         current_price := current, strategy_notes := t.strategy_notes }]
    else []

/-- Min-target block of the `check_advisory_alerts` loop body
(lines 89-103): fires when `min_low <= current <= min_high`. -/
def minTargetAlerts (current : ℚ) (name : String) (t : PriceTarget) : List AlertEvent :=
  match t.min_target_low, t.min_target_high with
  | some lo, some hi =>
    if lo ≤ current ∧ current ≤ hi then
      [{ user_id := t.user_id, ticker := t.ticker, stock_name := name,
         alert_type := "min_target_reached", trigger_price := lo,
         current_price := current, strategy_notes := t.strategy_notes }]
    else []
  | _, _ => []

/-- Reasonable-target block of the `check_advisory_alerts` loop body
(lines 105-119): fires when `reasonable_low <= current <= reasonable_high`. -/
def reasonableTargetAlerts (current : ℚ) (name : String) (t : PriceTarget) : List AlertEvent :=
  match t.reasonable_target_low, t.reasonable_target_high with
  | some lo, some hi =>
    if lo ≤ current ∧ current ≤ hi then
      [{ user_id := t.user_id, ticker := t.ticker, stock_name := name,
         alert_type := "reasonable_target_reached", trigger_price := lo,
         current_price := current, strategy_notes := t.strategy_notes }]
    else []
  | _, _ => []

/-- One iteration of the `check_advisory_alerts` loop: skip rows that are
not `is_latest` or whose ticker has no current price, else emit the
defense, min-target and reasonable-target alerts in source order. -/
def advisoryAlertsForTarget (prices : Prices) (names : NameMap) (t : PriceTarget) :
    List AlertEvent :=
  if t.is_latest = false then []
  else
    match prices t.ticker with
    | none => []
    | some current =>
      let name := (names t.ticker).getD ""
      defenseAlerts current name t ++ minTargetAlerts current name t ++
        reasonableTargetAlerts current name t

/-- `check_advisory_alerts` of `price_checker.py`: compare current prices
against advisory defense/target thresholds for every row. -/
def check_advisory_alerts (prices : Prices) (price_targets : List PriceTarget)
    (names : NameMap) : List AlertEvent :=
  price_targets.flatMap (advisoryAlertsForTarget prices names)

/-- Concrete price map for the spec scenario: instrument `X` trades at
52.30. -/
def scenarioPrices : Prices := fun s => if s = "X" then some (523/10) else none

/-- Concrete empty name map. -/
def noNames : NameMap := fun _ => none

/-- Concrete latest price-target row for the spec scenario: defense 53.0,
min band 60-65, reasonable band 70-80. -/
def scenarioTarget : PriceTarget :=
  { user_id := "u", ticker := "X", is_latest := true,
    defense_price := some 53, min_target_low := some 60,
    min_target_high := some 65, reasonable_target_low := some 70,
    reasonable_target_high := some 80, strategy_notes := "" }

/-- The alert the spec scenario expects: defense breach with trigger 53
and observed price 52.30. -/
def scenarioAlert : AlertEvent :=
  { user_id := "u", ticker := "X", stock_name := "",
    alert_type := "defense_breach", trigger_price := 53,
    current_price := 523/10, strategy_notes := "" }

/-- One row (lot) of the `portfolio_holdings` table as read by
`check_portfolio_alerts`. -/
structure Holding where
  user_id : String
  ticker : String
  name : String
  shares : ℚ
  cost_price : ℚ
  strategy_mode : String
  manual_tp : Option ℚ
  manual_sl : Option ℚ
  high_watermark_price : Option ℚ
deriving DecidableEq, Repr

/-- The per-`(user_id, ticker)` aggregate built by the grouping loop of
`check_portfolio_alerts` (`price_checker.py` lines 168-193). -/
structure AggHolding where
  user_id : String
  ticker : String
  name : String
  total_shares : ℚ
  total_cost : ℚ
  strategy_mode : String
  manual_tp : Option ℚ
  manual_sl : Option ℚ
  high_watermark_price : Option ℚ
deriving DecidableEq, Repr

/-- A fresh aggregate entry created the first time a `(user_id, ticker)`
key is seen: name, strategy mode, manual TP/SL and watermark come from
that first lot; totals start at zero. -/
def newAgg (h : Holding) : AggHolding :=
  { user_id := h.user_id, ticker := h.ticker, name := h.name,
    total_shares := 0, total_cost := 0, strategy_mode := h.strategy_mode,
    manual_tp := h.manual_tp, manual_sl := h.manual_sl,
    high_watermark_price := h.high_watermark_price }

/-- Accumulate one lot into an aggregate: add shares and cost, keep the
highest watermark (`existing = agg.get(...) or 0` treats `None` as 0). -/
def addToAgg (a : AggHolding) (h : Holding) : AggHolding :=
  { a with
    total_shares := a.total_shares + h.shares,
    total_cost := a.total_cost + h.shares * h.cost_price,
    high_watermark_price :=
      match h.high_watermark_price with
      | none => a.high_watermark_price
      | some v => some (max v (pyOr a.high_watermark_price 0)) }

/-- Insert one lot into the aggregate association list, updating in place
when the `(user_id, ticker)` key already exists (Python dict semantics:
first-insertion order is preserved). -/
def insertHolding (l : List AggHolding) (h : Holding) : List AggHolding :=
  match l with
  | [] => [addToAgg (newAgg h) h]
  | a :: rest =>
    if a.user_id = h.user_id ∧ a.ticker = h.ticker then addToAgg a h :: rest
    else a :: insertHolding rest h

/-- The grouping loop of `check_portfolio_alerts`: aggregate lots per
`(user_id, ticker)`. -/
def aggregateHoldings (holdings : List Holding) : List AggHolding :=
  holdings.foldl insertHolding []

/-- `calculate_tp_sl` of `price_checker.py`: manual mode takes user-set
TP/SL (falling back when they are `None`/0, Python truthiness); auto mode
takes `TP = max(cost*1.1, hwm*0.9)` with the watermark defaulting to cost,
and `SL = cost` (breakeven). -/
def calculate_tp_sl (cost_price : ℚ) (strategy_mode : String)
    (manual_tp manual_sl high_watermark_price : Option ℚ) : ℚ × ℚ :=
  if strategy_mode = "manual" then
    (pyOr manual_tp (cost_price * (11/10)), pyOr manual_sl cost_price)
  else
    (max (cost_price * (11/10)) (pyOr high_watermark_price cost_price * (9/10)),
      cost_price)

/-- The `tp_triggered` alert event built by `check_portfolio_alerts`. -/
def tpAlertEvent (agg : AggHolding) (tp current : ℚ) : AlertEvent :=
  { user_id := agg.user_id, ticker := agg.ticker, stock_name := agg.name,
    alert_type := "tp_triggered", trigger_price := tp,
    current_price := current, strategy_notes := "" }

/-- The `sl_triggered` alert event built by `check_portfolio_alerts`. -/
def slAlertEvent (agg : AggHolding) (sl current : ℚ) : AlertEvent :=
  { user_id := agg.user_id, ticker := agg.ticker, stock_name := agg.name,
    alert_type := "sl_triggered", trigger_price := sl,
    current_price := current, strategy_notes := "" }

/-- Evaluation of one aggregate against the current prices: the body of
the second loop of `check_portfolio_alerts` (lines 195-230). Skips keys
without a price or with non-positive total shares; emits `tp_triggered`
when `current >= TP` and `sl_triggered` when `current <= SL and SL > 0`. -/
def portfolioAlertsForAgg (prices : Prices) (agg : AggHolding) : List AlertEvent :=
  match prices agg.ticker with
  | none => []
  | some current =>
    if agg.total_shares ≤ 0 then []
    else
      let avg_cost := agg.total_cost / agg.total_shares
      let tpsl := calculate_tp_sl avg_cost agg.strategy_mode agg.manual_tp
        agg.manual_sl agg.high_watermark_price
      (if tpsl.1 ≤ current then [tpAlertEvent agg tpsl.1 current] else []) ++
      (if current ≤ tpsl.2 ∧ 0 < tpsl.2 then [slAlertEvent agg tpsl.2 current] else [])

/-- `check_portfolio_alerts` of `price_checker.py`: aggregate the holding
lots and compare current prices against the TP/SL thresholds. -/
def check_portfolio_alerts (prices : Prices) (holdings : List Holding) :
    List AlertEvent :=
  (aggregateHoldings holdings).flatMap (portfolioAlertsForAgg prices)

/-- One row of the `price_alerts` table as inserted by `_process_alerts`
(`stock_monitor.py` lines 457-465) and read back by `deduplicate_alerts`.
`triggered_at` is the parsed timestamp: `none` models a missing value or
one `datetime.fromisoformat` rejects (the `except: pass` branch). -/
structure RecentAlert where
  user_id : String
  ticker : String
  alert_type : String
  trigger_price : ℚ
  current_price : ℚ
  notified_via : List String
  triggered_at : Option ℚ
deriving DecidableEq, Repr

/-- The dedup key `(user_id, ticker, alert_type)` of a new alert. -/
def keyOf (a : AlertEvent) : String × String × String :=
  (a.user_id, a.ticker, a.alert_type)

/-- The `recent_set` built by `deduplicate_alerts`: keys of records whose
parsed timestamp is strictly after the cutoff; records with a missing or
unparseable timestamp contribute nothing. -/
def recentKeys (recent : List RecentAlert) (cutoff : ℚ) :
    List (String × String × String) :=
  (recent.filter (fun r =>
    match r.triggered_at with
    | some ts => decide (cutoff < ts)
    | none => false)).map (fun r => (r.user_id, r.ticker, r.alert_type))

/-- `deduplicate_alerts` of `price_checker.py`: drop new alerts whose key
fired within the cooldown window (`cutoff = now - cooldown_minutes`). -/
def deduplicate_alerts (new_alerts : List AlertEvent) (recent : List RecentAlert)
    (cooldown_minutes : ℚ) (now : ℚ) : List AlertEvent :=
  new_alerts.filter (fun a => decide (keyOf a ∉ recentKeys recent (now - cooldown_minutes)))

/-- The `notified_via` list accumulated by `_process_alerts`: `"line"`
when the LINE push reported success, then `"telegram"` likewise; delivery
failures and raised exceptions both mean the flag is false. -/
def notifiedVia (lineOk tgOk : AlertEvent → Bool) (a : AlertEvent) : List String :=
  (if lineOk a then ["line"] else []) ++ (if tgOk a then ["telegram"] else [])

/-- The `price_alerts` row inserted by `_process_alerts` for one
dispatched alert; `triggered_at` is the insertion time assigned by the
store. -/
def recordOf (now : ℚ) (lineOk tgOk : AlertEvent → Bool) (a : AlertEvent) :
    RecentAlert :=
  { user_id := a.user_id, ticker := a.ticker, alert_type := a.alert_type,
    trigger_price := a.trigger_price, current_price := a.current_price,
    notified_via := notifiedVia lineOk tgOk a, triggered_at := some now }

/-- The dedup-record-dispatch tail of `_process_alerts` (lines 426-470):
deduplicate the freshly computed alerts against the history with a
60-minute cooldown, then record every surviving alert regardless of
which channels delivered. Returns (dispatched alerts, new history). -/
def processCycle (history : List RecentAlert) (now : ℚ) (alerts : List AlertEvent)
    (lineOk tgOk : AlertEvent → Bool) : List AlertEvent × List RecentAlert :=
  let surviving := deduplicate_alerts alerts history 60 now
  (surviving, history ++ surviving.map (recordOf now lineOk tgOk))

/-- A concrete history record with the scenario key and a missing
(unparseable) `triggered_at`. -/
def staleRecord : RecentAlert :=
  { user_id := "u", ticker := "X", alert_type := "defense_breach",
    trigger_price := 53, current_price := 52, notified_via := [],
    triggered_at := none }

/-- A sequence of alert-check cycles: each cycle is (wall-clock time,
alerts the rule checks produced); collects all dispatched alerts and the
final history. -/
def runCycles (history : List RecentAlert) (cycles : List (ℚ × List AlertEvent))
    (lineOk tgOk : AlertEvent → Bool) : List AlertEvent × List RecentAlert :=
  match cycles with
  | [] => ([], history)
  | c :: rest =>
    let p := processCycle history c.1 c.2 lineOk tgOk
    let q := runCycles p.2 rest lineOk tgOk
    (p.1 ++ q.1, q.2)

/-- The subscription state of `DynamicSubscription`
(`dynamic_subscription.py`): the previously known watch sets per
exchange-region. -/
structure ScanState where
  current_tw : Finset String
  current_us : Finset String
deriving DecidableEq

/-- The observable outcome of one `_scan` pass: the arguments of every
subscribe / unsubscribe callback invocation, per exchange-region, plus
the updated state. -/
structure ScanResult where
  tw_subscribe_calls : List (Finset String)
  tw_unsubscribe_calls : List (Finset String)
  us_subscribe_calls : List (Finset String)
  us_unsubscribe_calls : List (Finset String)
  state : ScanState
deriving DecidableEq

/-- The reconciliation part of `_scan` (`dynamic_subscription.py` lines
133-168), after the two store queries have produced the required sets:
for Taiwan, invoke the subscribe callback on the added delta and the
unsubscribe callback on the removed delta (each only when non-empty);
for the US the sets are only tracked — no callback is invoked (Phase 2
comment, lines 153-163). -/
def scan (st : ScanState) (tw_required us_required : Finset String) : ScanResult :=
  let new_tw := tw_required \ st.current_tw
  let removed_tw := st.current_tw \ tw_required
  { tw_subscribe_calls := if new_tw.Nonempty then [new_tw] else [],
    tw_unsubscribe_calls := if removed_tw.Nonempty then [removed_tw] else [],
    us_subscribe_calls := [],
    us_unsubscribe_calls := [],
    state := { current_tw := tw_required, current_us := us_required } }

/-- `RECONNECT_BASE_DELAY = 1.0` s, shared by both WebSocket clients. -/
def RECONNECT_BASE_DELAY : ℚ := 1

/-- `RECONNECT_MAX_DELAY = 60.0` s, shared constant of both clients. -/
def RECONNECT_MAX_DELAY : ℚ := 60

/-- `MAX_CONN_BACKOFF = 120.0` s (`fugle_ws_client.py`): elongated backoff
for "Maximum connections" errors. -/
def MAX_CONN_BACKOFF : ℚ := 120

/-- The effective reconnect ceiling of a `FugleWSClient` constructed with
`reconnect_max_delay`: `self._reconnect_max = max(reconnect_max_delay,
MAX_CONN_BACKOFF)` (`__init__`, lines 68-71). -/
def fugleReconnectMax (reconnect_max_delay : ℚ) : ℚ :=
  max reconnect_max_delay MAX_CONN_BACKOFF

/-- Backoff-relevant state of a `FugleWSClient`: `_reconnect_delay` and
`_connected`. -/
structure FugleState where
  reconnect_delay : ℚ
  connected : Bool
deriving DecidableEq, Repr

/-- Initial Fugle client state: delay at base, disconnected. -/
def fugleInit : FugleState :=
  { reconnect_delay := RECONNECT_BASE_DELAY, connected := false }

/-- The Fugle SDK events that touch the backoff state. -/
inductive FugleEvent where
  /-- the SDK `connect` event (`_on_connect`) -/
  | connectEv
  /-- a validated (dict) data message (`_on_message`) -/
  | dataMessage
  /-- the SDK `disconnect` event while the client should run, triggering
  `_schedule_reconnect` (`_on_disconnect`) -/
  | disconnectEv
  /-- a "Maximum number of connections" error (`_on_error`) -/
  | maxConnError
deriving DecidableEq, Repr

/-- One Fugle event-handler step (`fugle_ws_client.py` lines 187-267 and
457-476). Returns the new state and, when a reconnect was scheduled, the
delay it will wait. `_on_connect` deliberately does NOT reset the backoff
(source comment, lines 189-191); `_on_message` resets it to base once real
data arrives (lines 214-217); `_schedule_reconnect` uses the current delay
and then doubles it up to the ceiling (lines 466-476). -/
def fugleStep (reconnect_max : ℚ) (s : FugleState) : FugleEvent → FugleState × Option ℚ
  | .connectEv => ({ s with connected := true }, none)
  | .dataMessage =>
    ({ s with reconnect_delay :=
        if RECONNECT_BASE_DELAY < s.reconnect_delay then RECONNECT_BASE_DELAY
        else s.reconnect_delay }, none)
  | .disconnectEv =>
    ({ connected := false,
       reconnect_delay := min (s.reconnect_delay * 2) reconnect_max },
     some s.reconnect_delay)
  | .maxConnError =>
    ({ s with reconnect_delay := max s.reconnect_delay MAX_CONN_BACKOFF }, none)

/-- Run a Fugle client through a list of events, collecting the scheduled
reconnect delays in order. -/
def fugleRun (reconnect_max : ℚ) (s : FugleState) :
    List FugleEvent → FugleState × List ℚ
  | [] => (s, [])
  | e :: es =>
    let p := fugleStep reconnect_max s e
    let q := fugleRun reconnect_max p.1 es
    (q.1, p.2.toList ++ q.2)

/-- Backoff-relevant state of a `FinnhubWSClient`. -/
structure FinnhubState where
  reconnect_delay : ℚ
  connected : Bool
deriving DecidableEq, Repr

/-- Initial Finnhub client state: delay at base, disconnected. -/
def finnhubInit : FinnhubState :=
  { reconnect_delay := RECONNECT_BASE_DELAY, connected := false }

/-- The Finnhub WebSocket events that touch the backoff state. -/
inductive FinnhubEvent where
  /-- the socket-open callback (`_on_open`) -/
  | openEv
  /-- an incoming message (`_on_message`) — it never touches the backoff -/
  | dataMessage
  /-- the close callback while the client should run, triggering
  `_schedule_reconnect` (`_on_close`) -/
  | closeEv
  /-- a 429 / rate-limit error (`_on_error`) -/
  | rateLimitError
deriving DecidableEq, Repr

/-- One Finnhub event-handler step (`finnhub_ws_client.py` lines 180-280
and 320-326). `_on_open` resets `_reconnect_delay` to the base delay
(line 183); `_on_message` does not touch the backoff; `_on_error` on a
rate limit raises the delay to at least 120 s; `_schedule_reconnect` uses
the current delay and doubles it up to `RECONNECT_MAX_DELAY`. -/
def finnhubStep (s : FinnhubState) : FinnhubEvent → FinnhubState × Option ℚ
  | .openEv => ({ reconnect_delay := RECONNECT_BASE_DELAY, connected := true }, none)
  | .dataMessage => (s, none)
  | .closeEv =>
    ({ connected := false,
       reconnect_delay := min (s.reconnect_delay * 2) RECONNECT_MAX_DELAY },
     some s.reconnect_delay)
  | .rateLimitError =>
    ({ s with reconnect_delay := max s.reconnect_delay 120 }, none)

/-- Run a Finnhub client through a list of events, collecting the
scheduled reconnect delays in order. -/
def finnhubRun (s : FinnhubState) : List FinnhubEvent → FinnhubState × List ℚ
  | [] => (s, [])
  | e :: es =>
    let p := finnhubStep s e
    let q := finnhubRun p.1 es
    (q.1, p.2.toList ++ q.2)

/-- Reference sequence of scheduled delays: starting from delay `d`, each
schedule uses the current delay and then doubles it, capped at `c`. -/
def scheduleDelays (c : ℚ) (d : ℚ) : ℕ → List ℚ
  | 0 => []
  | n + 1 => d :: scheduleDelays c (min (d * 2) c) n

/-- The `trade` sub-object of a Fugle data payload (only its price is
relevant to the claims). -/
structure FugleTradeObj where
  price : Option ℚ
deriving DecidableEq, Repr

/-- The `data` payload of a Fugle message: every field the price/symbol
extraction strategies of `_handle_message` read, plus the bid/ask fields
the handler deliberately ignores. A missing `data` dict is the all-`none`
value. -/
structure FugleData where
  symbol : Option String
  code : Option String
  price : Option ℚ
  trade : Option FugleTradeObj
  closePrice : Option ℚ
  lastPrice : Option ℚ
  close : Option ℚ
  bid : Option ℚ
  ask : Option ℚ
deriving DecidableEq, Repr

/-- A parsed Fugle WebSocket message (a dict): `event` is
`message.get("event", "")`; top-level symbol/code/price mirror the SDK
v2.x layout; bid/ask are present but never read by the handler. -/
structure FugleMsg where
  event : String
  data : FugleData
  symbol : Option String
  code : Option String
  price : Option ℚ
  bid : Option ℚ
  ask : Option ℚ
deriving DecidableEq, Repr

/-- A `market_data` upsert written by a WebSocket client (the price
fields; volume/OHLC enrichment carries no claim and is not modelled). -/
structure MarketUpsert where
  ticker : String
  region : String
  current_price : ℚ
  realtime_price : ℚ
  update_source : String
deriving DecidableEq, Repr

/-- Symbol extraction of `_handle_message` (lines 327-334):
`data.symbol or message.symbol or data.code or message.code or ""`. -/
def fugleExtractSymbol (m : FugleMsg) : String :=
  pyOrStr m.data.symbol (pyOrStr m.symbol (pyOrStr m.data.code (pyOrStr m.code "")))

/-- Price extraction of `_handle_message` (lines 347-372): try
`data.price`, then `data.trade.price`, then top-level `price`, then
`data.closePrice or data.lastPrice or data.close`; there is deliberately
no bid/ask-midpoint fallback (source comment, lines 368-372). -/
def fugleExtractPrice (m : FugleMsg) : Option ℚ :=
  match m.data.price with
  | some p => some p
  | none =>
    match (match m.data.trade with | some t => t.price | none => none) with
    | some p => some p
    | none =>
      match m.price with
      | some p => some p
      | none => pyOrOpt (pyOrOpt m.data.closePrice m.data.lastPrice) m.data.close

/-- `_handle_message` of `fugle_ws_client.py` (lines 271-426) reduced to
its observable store write: skip non-data events, messages without a
symbol, and messages whose extracted price is missing or non-positive;
otherwise upsert the trade price as current and realtime price. -/
def fugle_handle_message (m : FugleMsg) : Option MarketUpsert :=
  if m.event ≠ "" ∧ m.event ≠ "data" then none
  else if fugleExtractSymbol m = "" then none
  else
    match fugleExtractPrice m with
    | none => none
    | some p =>
      if p ≤ 0 then none
      else
        some { ticker := fugleExtractSymbol m, region := "TPE",
               current_price := p, realtime_price := p,
               update_source := "fugle_ws" }

/-- One element of the `data` array of a Finnhub trade message:
`{"s": symbol, "p": price, "v": volume, ...}`. -/
structure FinnhubTrade where
  s : String
  p : Option ℚ
  v : ℚ
deriving DecidableEq, Repr

/-- Python-dict insert with last-write-wins value update and
first-insertion key order (`latest[symbol] = ...`). -/
def insertLatest (acc : List (String × ℚ)) (sym : String) (p : ℚ) :
    List (String × ℚ) :=
  match acc with
  | [] => [(sym, p)]
  | kv :: rest =>
    if kv.1 = sym then (kv.1, p) :: rest else kv :: insertLatest rest sym p

/-- The per-trade aggregation step of `_on_message` (lines 229-238): keep
a trade only when it has a symbol and a truthy, positive price. -/
def finnhubUpdateLatest (acc : List (String × ℚ)) (t : FinnhubTrade) :
    List (String × ℚ) :=
  match t.p with
  | none => acc
  | some p =>
    if t.s ≠ "" ∧ p ≠ 0 ∧ 0 < p then insertLatest acc t.s p else acc

/-- `_on_message` of `finnhub_ws_client.py` (lines 190-258) reduced to its
observable store writes: ignore non-trade messages and everything outside
US market hours, aggregate the latest valid price per symbol, and upsert
each one. -/
def finnhub_on_message (marketOpen : Bool) (msg_type : String)
    (trades : List FinnhubTrade) : List MarketUpsert :=
  if msg_type ≠ "trade" then []
  else if ¬ marketOpen then []
  else
    (trades.foldl finnhubUpdateLatest []).map (fun kv =>
      { ticker := kv.1, region := "US", current_price := kv.2,
        realtime_price := kv.2, update_source := "finnhub_ws" })

/-- A Fugle data message carrying bid/ask but no trade price in any of
the recognised locations. -/
def bidAskOnlyMsg : FugleMsg :=
  { event := "data",
    data := { symbol := some "2330", code := none, price := none,
              trade := none, closePrice := none, lastPrice := none,
              close := none, bid := some 100, ask := some 101 },
    symbol := none, code := none, price := none, bid := none, ask := none }

/-- Finnhub trades with a missing price and a zero price. -/
def invalidTrades : List FinnhubTrade :=
  [{ s := "AAPL", p := none, v := 5 }, { s := "MSFT", p := some 0, v := 1 }]

/-- One `_update_high_watermarks` step for one holding and one observed
price (`stock_monitor.py` lines 380-389): the effective watermark is
`float(high_watermark_price or cost_price)`, and the stored value is
raised to the observed price exactly when the price exceeds it. -/
def hwmStep (cost : ℚ) (hwm : Option ℚ) (current : ℚ) : Option ℚ :=
  if pyOr hwm cost < current then some current else hwm

/-- The stored watermark after a sequence of observed prices has been fed
through `_update_high_watermarks` (one run per price). -/
def hwmAfter (cost : ℚ) (hwm0 : Option ℚ) (ps : List ℚ) : Option ℚ :=
  ps.foldl (hwmStep cost) hwm0

/-- The effective watermark a reader sees: stored value, defaulting to
cost via Python truthiness. -/
def effHwm (cost : ℚ) (hwm : Option ℚ) : ℚ := pyOr hwm cost

/-- Modelled from the spec (§4.5 step 3: "update `high_watermark_price`
first if the observed price is a new high"): raise a holding's stored
watermark to the observed price before any TP/SL evaluation. -/
def specHwmUpdateHolding (prices : Prices) (h : Holding) : Holding :=
  match prices h.ticker with
  | none => h
  | some current =>
    { h with high_watermark_price := hwmStep h.cost_price h.high_watermark_price current }

/-- Modelled from the spec: the evaluator the claim describes — update
watermarks first, then evaluate the portfolio TP/SL rules. -/
def specCheckPortfolioAfterHwmUpdate (prices : Prices) (holdings : List Holding) :
    List AlertEvent :=
  check_portfolio_alerts prices (holdings.map (specHwmUpdateHolding prices))

/-- A holding whose stored watermark (200) is below the observed price. -/
def c9Holding : Holding :=
  { user_id := "u", ticker := "H", name := "", shares := 100,
    cost_price := 100, strategy_mode := "auto", manual_tp := none,
    manual_sl := none, high_watermark_price := some 200 }

/-- Price map observing 300 for the C9 holding — a new high. -/
def c9Prices : Prices := fun s => if s = "H" then some 300 else none

/-- Every alert emitted by the defense block has type `defense_breach`,
trigger price equal to the defense price and the observed current price. -/
theorem defenseAlerts_filter_self (c : ℚ) (n : String) (t : PriceTarget) :
    (defenseAlerts c n t).filter (fun a => a.alert_type == "defense_breach") =
      defenseAlerts c n t := by
  unfold defenseAlerts
  split
  · simp
  · split_ifs <;> simp

theorem minTargetAlerts_filter_defense (c : ℚ) (n : String) (t : PriceTarget) :
    (minTargetAlerts c n t).filter (fun a => a.alert_type == "defense_breach") = [] := by
  unfold minTargetAlerts
  split
  · split_ifs <;> simp
  · simp

theorem reasonableTargetAlerts_filter_defense (c : ℚ) (n : String) (t : PriceTarget) :
    (reasonableTargetAlerts c n t).filter (fun a => a.alert_type == "defense_breach") = [] := by
  unfold reasonableTargetAlerts
  split
  · split_ifs <;> simp
  · simp

theorem defenseAlerts_filter_min (c : ℚ) (n : String) (t : PriceTarget) :
    (defenseAlerts c n t).filter (fun a => a.alert_type == "min_target_reached") = [] := by
  unfold defenseAlerts
  split
  · simp
  · split_ifs <;> simp

theorem minTargetAlerts_filter_self (c : ℚ) (n : String) (t : PriceTarget) :
    (minTargetAlerts c n t).filter (fun a => a.alert_type == "min_target_reached") =
      minTargetAlerts c n t := by
  unfold minTargetAlerts
  split
  · split_ifs <;> simp
  · simp

theorem reasonableTargetAlerts_filter_min (c : ℚ) (n : String) (t : PriceTarget) :
    (reasonableTargetAlerts c n t).filter (fun a => a.alert_type == "min_target_reached") = [] := by
  unfold reasonableTargetAlerts
  split
  · split_ifs <;> simp
  · simp

theorem defenseAlerts_filter_reasonable (c : ℚ) (n : String) (t : PriceTarget) :
    (defenseAlerts c n t).filter (fun a => a.alert_type == "reasonable_target_reached") = [] := by
  unfold defenseAlerts
  split
  · simp
  · split_ifs <;> simp

theorem minTargetAlerts_filter_reasonable (c : ℚ) (n : String) (t : PriceTarget) :
    (minTargetAlerts c n t).filter (fun a => a.alert_type == "reasonable_target_reached") = [] := by
  unfold minTargetAlerts
  split
  · split_ifs <;> simp
  · simp

theorem reasonableTargetAlerts_filter_self (c : ℚ) (n : String) (t : PriceTarget) :
    (reasonableTargetAlerts c n t).filter (fun a => a.alert_type == "reasonable_target_reached") =
      reasonableTargetAlerts c n t := by
  unfold reasonableTargetAlerts
  split
  · split_ifs <;> simp
  · simp

/-- Unfolding of the per-target advisory check on a latest row with a
known current price. -/
theorem advisoryAlertsForTarget_eq (prices : Prices) (names : NameMap)
    (t : PriceTarget) (current : ℚ) (hl : t.is_latest = true)
    (hp : prices t.ticker = some current) :
    advisoryAlertsForTarget prices names t =
      defenseAlerts current ((names t.ticker).getD "") t ++
        minTargetAlerts current ((names t.ticker).getD "") t ++
        reasonableTargetAlerts current ((names t.ticker).getD "") t := by
  unfold advisoryAlertsForTarget
  rw [hl, hp]
  simp

/-- C1: for every price-target row marked latest whose ticker has a
current price, the advisory check emits a `defense_breach` alert exactly
when `current <= defense_price`, a `min_target_reached` alert exactly when
`min_low <= current <= min_high`, and a `reasonable_target_reached` alert
exactly when `reasonable_low <= current <= reasonable_high`; each emitted
alert carries the breached threshold (defense price, resp. the band's low
bound) as `trigger_price` and the observed current price; and the
per-target alerts are all emitted by `check_advisory_alerts` on any list
containing the row. -/
theorem C1_advisory_check_exact (prices : Prices) (names : NameMap)
    (t : PriceTarget) (current : ℚ) (hl : t.is_latest = true)
    (hp : prices t.ticker = some current) :
    (∀ d, t.defense_price = some d →
      (advisoryAlertsForTarget prices names t).filter
          (fun a => a.alert_type == "defense_breach") =
        (if current ≤ d then
          [{ user_id := t.user_id, ticker := t.ticker,
             stock_name := (names t.ticker).getD "",
             alert_type := "defense_breach", trigger_price := d,
             current_price := current, strategy_notes := t.strategy_notes }]
         else [])) ∧
    (∀ lo hi, t.min_target_low = some lo → t.min_target_high = some hi →
      (advisoryAlertsForTarget prices names t).filter
          (fun a => a.alert_type == "min_target_reached") =
        (if lo ≤ current ∧ current ≤ hi then
          [{ user_id := t.user_id, ticker := t.ticker,
             stock_name := (names t.ticker).getD "",
             alert_type := "min_target_reached", trigger_price := lo,
             current_price := current, strategy_notes := t.strategy_notes }]
         else [])) ∧
    (∀ lo hi, t.reasonable_target_low = some lo → t.reasonable_target_high = some hi →
      (advisoryAlertsForTarget prices names t).filter
          (fun a => a.alert_type == "reasonable_target_reached") =
        (if lo ≤ current ∧ current ≤ hi then
          [{ user_id := t.user_id, ticker := t.ticker,
             stock_name := (names t.ticker).getD "",
             alert_type := "reasonable_target_reached", trigger_price := lo,
             current_price := current, strategy_notes := t.strategy_notes }]
         else [])) ∧
    (∀ ts, t ∈ ts → ∀ a ∈ advisoryAlertsForTarget prices names t,
      a ∈ check_advisory_alerts prices ts names) := by
  refine ⟨?_, ?_, ?_, ?_⟩
  · intro d hd
    rw [advisoryAlertsForTarget_eq prices names t current hl hp]
    rw [List.filter_append, List.filter_append,
      defenseAlerts_filter_self, minTargetAlerts_filter_defense,
      reasonableTargetAlerts_filter_defense]
    unfold defenseAlerts
    rw [hd]
    split_ifs <;> simp_all
  · intro lo hi hlo hhi
    rw [advisoryAlertsForTarget_eq prices names t current hl hp]
    rw [List.filter_append, List.filter_append,
      defenseAlerts_filter_min, minTargetAlerts_filter_self,
      reasonableTargetAlerts_filter_min]
    unfold minTargetAlerts
    rw [hlo, hhi]
    split_ifs <;> simp_all
  · intro lo hi hlo hhi
    rw [advisoryAlertsForTarget_eq prices names t current hl hp]
    rw [List.filter_append, List.filter_append,
      defenseAlerts_filter_reasonable, minTargetAlerts_filter_reasonable,
      reasonableTargetAlerts_filter_self]
    unfold reasonableTargetAlerts
    rw [hlo, hhi]
    split_ifs <;> simp_all
  · intro ts hts a ha
    unfold check_advisory_alerts
    exact List.mem_flatMap.mpr ⟨t, hts, ha⟩

/-- Witness for C1: the spec scenario (defense 53.0, current 52.30)
produces exactly one defense-breach alert with trigger 53 and observed
price 52.30, and it is emitted by the full advisory check. -/
theorem C1_witness :
    (advisoryAlertsForTarget scenarioPrices noNames scenarioTarget).filter
        (fun a => a.alert_type == "defense_breach") = [scenarioAlert] ∧
    scenarioAlert ∈ check_advisory_alerts scenarioPrices [scenarioTarget] noNames := by
  obtain ⟨h1, _h2, _h3, h4⟩ := C1_advisory_check_exact scenarioPrices noNames
    scenarioTarget (523/10) rfl (by norm_num [scenarioPrices, scenarioTarget])
  have hfilter := h1 53 rfl
  rw [if_pos (by norm_num)] at hfilter
  constructor
  · rw [hfilter]
    simp [scenarioTarget, scenarioAlert, noNames]
  · refine h4 [scenarioTarget] (by simp) scenarioAlert ?_
    refine List.mem_of_mem_filter (p := fun a => a.alert_type == "defense_breach") ?_
    rw [hfilter]
    simp [scenarioTarget, scenarioAlert, noNames]

/-- Unfolding of the per-aggregate portfolio check when the ticker has a
price and the aggregate has positive shares. -/
theorem portfolioAlertsForAgg_eq (prices : Prices) (agg : AggHolding) (current : ℚ)
    (hs : 0 < agg.total_shares) (hp : prices agg.ticker = some current) :
    portfolioAlertsForAgg prices agg =
      (if (calculate_tp_sl (agg.total_cost / agg.total_shares) agg.strategy_mode
            agg.manual_tp agg.manual_sl agg.high_watermark_price).1 ≤ current then
        [tpAlertEvent agg (calculate_tp_sl (agg.total_cost / agg.total_shares)
          agg.strategy_mode agg.manual_tp agg.manual_sl agg.high_watermark_price).1 current]
       else []) ++
      (if current ≤ (calculate_tp_sl (agg.total_cost / agg.total_shares) agg.strategy_mode
            agg.manual_tp agg.manual_sl agg.high_watermark_price).2 ∧
          0 < (calculate_tp_sl (agg.total_cost / agg.total_shares) agg.strategy_mode
            agg.manual_tp agg.manual_sl agg.high_watermark_price).2 then
        [slAlertEvent agg (calculate_tp_sl (agg.total_cost / agg.total_shares)
          agg.strategy_mode agg.manual_tp agg.manual_sl agg.high_watermark_price).2 current]
       else []) := by
  unfold portfolioAlertsForAgg
  rw [hp]
  simp [not_le.mpr hs]

theorem tp_block_filter_sl (agg : AggHolding) (tp current : ℚ) (c : Prop) [Decidable c] :
    (if c then [tpAlertEvent agg tp current] else []).filter
      (fun a => a.alert_type == "sl_triggered") = [] := by
  split_ifs <;> simp [tpAlertEvent]

theorem sl_block_filter_tp (agg : AggHolding) (sl current : ℚ) (c : Prop) [Decidable c] :
    (if c then [slAlertEvent agg sl current] else []).filter
      (fun a => a.alert_type == "tp_triggered") = [] := by
  split_ifs <;> simp [slAlertEvent]

/-- C8: for every aggregated holding with positive total shares whose
ticker has a positive current price, the evaluated thresholds are
`TP = max(avg_cost*1.1, hwm*0.9)` and `SL = avg_cost` in auto mode (with
the watermark defaulting to `avg_cost` when unset) and the user-set
values in manual mode; a `tp_triggered` alert fires exactly when
`current >= TP` and an `sl_triggered` alert exactly when `current <= SL`;
and per-aggregate alerts are all emitted by `check_portfolio_alerts`. -/
theorem C8_portfolio_tp_sl_exact (prices : Prices) (agg : AggHolding) (current : ℚ)
    (hs : 0 < agg.total_shares) (hp : prices agg.ticker = some current)
    (hc : 0 < current) :
    (agg.strategy_mode = "auto" →
      calculate_tp_sl (agg.total_cost / agg.total_shares) agg.strategy_mode
          agg.manual_tp agg.manual_sl agg.high_watermark_price =
        (max (agg.total_cost / agg.total_shares * (11/10))
          (pyOr agg.high_watermark_price (agg.total_cost / agg.total_shares) * (9/10)),
         agg.total_cost / agg.total_shares)) ∧
    (agg.strategy_mode = "auto" → agg.high_watermark_price = none →
      (calculate_tp_sl (agg.total_cost / agg.total_shares) agg.strategy_mode
          agg.manual_tp agg.manual_sl agg.high_watermark_price).1 =
        max (agg.total_cost / agg.total_shares * (11/10))
          (agg.total_cost / agg.total_shares * (9/10))) ∧
    (∀ mtp msl, agg.strategy_mode = "manual" →
      agg.manual_tp = some mtp → mtp ≠ 0 → agg.manual_sl = some msl → msl ≠ 0 →
      calculate_tp_sl (agg.total_cost / agg.total_shares) agg.strategy_mode
          agg.manual_tp agg.manual_sl agg.high_watermark_price = (mtp, msl)) ∧
    ((portfolioAlertsForAgg prices agg).filter (fun a => a.alert_type == "tp_triggered") =
      if (calculate_tp_sl (agg.total_cost / agg.total_shares) agg.strategy_mode
            agg.manual_tp agg.manual_sl agg.high_watermark_price).1 ≤ current then
        [tpAlertEvent agg (calculate_tp_sl (agg.total_cost / agg.total_shares)
          agg.strategy_mode agg.manual_tp agg.manual_sl agg.high_watermark_price).1 current]
      else []) ∧
    ((portfolioAlertsForAgg prices agg).filter (fun a => a.alert_type == "sl_triggered") =
      if current ≤ (calculate_tp_sl (agg.total_cost / agg.total_shares) agg.strategy_mode
            agg.manual_tp agg.manual_sl agg.high_watermark_price).2 then
        [slAlertEvent agg (calculate_tp_sl (agg.total_cost / agg.total_shares)
          agg.strategy_mode agg.manual_tp agg.manual_sl agg.high_watermark_price).2 current]
      else []) ∧
    (∀ hl, agg ∈ aggregateHoldings hl → ∀ a ∈ portfolioAlertsForAgg prices agg,
      a ∈ check_portfolio_alerts prices hl) := by
  refine ⟨?_, ?_, ?_, ?_, ?_, ?_⟩
  · intro hmode
    rw [hmode]
    unfold calculate_tp_sl
    simp
  · intro hmode hnone
    rw [hmode, hnone]
    unfold calculate_tp_sl
    simp [pyOr]
  · intro mtp msl hmode htp htp0 hsl hsl0
    rw [hmode, htp, hsl]
    unfold calculate_tp_sl
    simp [pyOr, htp0, hsl0]
  · rw [portfolioAlertsForAgg_eq prices agg current hs hp, List.filter_append,
      sl_block_filter_tp]
    split_ifs <;> simp [tpAlertEvent]
  · rw [portfolioAlertsForAgg_eq prices agg current hs hp, List.filter_append,
      tp_block_filter_sl]
    have hcond : (current ≤ (calculate_tp_sl (agg.total_cost / agg.total_shares)
        agg.strategy_mode agg.manual_tp agg.manual_sl agg.high_watermark_price).2 ∧
        0 < (calculate_tp_sl (agg.total_cost / agg.total_shares) agg.strategy_mode
          agg.manual_tp agg.manual_sl agg.high_watermark_price).2) ↔
        current ≤ (calculate_tp_sl (agg.total_cost / agg.total_shares) agg.strategy_mode
          agg.manual_tp agg.manual_sl agg.high_watermark_price).2 :=
      ⟨fun x => x.1, fun x => ⟨x, lt_of_lt_of_le hc x⟩⟩
    rw [if_congr hcond rfl rfl]
    split_ifs <;> simp [slAlertEvent]
  · intro hl hmem a ha
    unfold check_portfolio_alerts
    exact List.mem_flatMap.mpr ⟨agg, hmem, ha⟩

/-- Witness for C8: two lots of 100 shares at cost 50 and 60 (avg 55),
auto mode, watermark 70, give TP = max(60.5, 63) = 63; at price 63 the
take-profit alert fires with trigger 63, and it is emitted by the full
portfolio check. -/
theorem C8_witness :
    ((portfolioAlertsForAgg (fun s => if s = "T" then some 63 else none)
        { user_id := "u", ticker := "T", name := "Test", total_shares := 200,
          total_cost := 11000, strategy_mode := "auto", manual_tp := none,
          manual_sl := none, high_watermark_price := some 70 }).filter
      (fun a => a.alert_type == "tp_triggered") =
      [tpAlertEvent
        { user_id := "u", ticker := "T", name := "Test", total_shares := 200,
          total_cost := 11000, strategy_mode := "auto", manual_tp := none,
          manual_sl := none, high_watermark_price := some 70 } 63 63]) ∧
    (tpAlertEvent
        { user_id := "u", ticker := "T", name := "Test", total_shares := 200,
          total_cost := 11000, strategy_mode := "auto", manual_tp := none,
          manual_sl := none, high_watermark_price := some 70 } 63 63 ∈
      check_portfolio_alerts (fun s => if s = "T" then some 63 else none)
        [{ user_id := "u", ticker := "T", name := "Test", shares := 100,
           cost_price := 50, strategy_mode := "auto", manual_tp := none,
           manual_sl := none, high_watermark_price := some 70 },
         { user_id := "u", ticker := "T", name := "Test", shares := 100,
           cost_price := 60, strategy_mode := "auto", manual_tp := none,
           manual_sl := none, high_watermark_price := none }]) := by
  obtain ⟨hauto, _, _, htp, _hsl, hlift⟩ := C8_portfolio_tp_sl_exact
    (fun s => if s = "T" then some 63 else none)
    { user_id := "u", ticker := "T", name := "Test", total_shares := 200,
      total_cost := 11000, strategy_mode := "auto", manual_tp := none,
      manual_sl := none, high_watermark_price := some 70 }
    63 (by norm_num) (by norm_num) (by norm_num)
  have hval : calculate_tp_sl ((11000 : ℚ) / 200) "auto" none none (some 70) = (63, 55) := by
    rw [hauto rfl]
    norm_num [pyOr]
  rw [hval] at htp
  rw [if_pos (by norm_num)] at htp
  refine ⟨htp, ?_⟩
  refine hlift _ ?_ _ ?_
  · show _ ∈ aggregateHoldings _
    simp [aggregateHoldings, insertHolding, addToAgg, newAgg, pyOr]
    norm_num
  · refine List.mem_of_mem_filter (p := fun a => a.alert_type == "tp_triggered") ?_
    rw [htp]
    simp

/-- Membership in the recent-key set: some record with that key has a
parsed timestamp strictly after the cutoff. -/
theorem mem_recentKeys (k : String × String × String) (recent : List RecentAlert)
    (cutoff : ℚ) :
    k ∈ recentKeys recent cutoff ↔
      ∃ r ∈ recent, (r.user_id, r.ticker, r.alert_type) = k ∧
        ∃ ts, r.triggered_at = some ts ∧ cutoff < ts := by
  unfold recentKeys
  simp only [List.mem_map, List.mem_filter]
  constructor
  · rintro ⟨r, ⟨hr, hp⟩, hk⟩
    refine ⟨r, hr, hk, ?_⟩
    cases h : r.triggered_at with
    | none => rw [h] at hp; simp at hp
    | some ts => rw [h] at hp; exact ⟨ts, rfl, by simpa using hp⟩
  · rintro ⟨r, hr, hk, ts, hts, hlt⟩
    exact ⟨r, ⟨hr, by rw [hts]; simpa using hlt⟩, hk⟩

/-- The recent-key set shrinks as the cutoff moves later. -/
theorem recentKeys_mono (recent : List RecentAlert) (c c' : ℚ) (h : c ≤ c') :
    ∀ k, k ∈ recentKeys recent c' → k ∈ recentKeys recent c := by
  intro k hk
  rw [mem_recentKeys] at hk ⊢
  obtain ⟨r, hr, hkey, ts, hts, hlt⟩ := hk
  exact ⟨r, hr, hkey, ts, hts, lt_of_le_of_lt h hlt⟩

theorem recentKeys_append (h1 h2 : List RecentAlert) (c : ℚ) :
    recentKeys (h1 ++ h2) c = recentKeys h1 c ++ recentKeys h2 c := by
  unfold recentKeys
  rw [List.filter_append, List.map_append]

/-- Deduplication of a single new alert: dropped exactly when its key is
in the recent set. -/
theorem dedup_singleton (a : AlertEvent) (recent : List RecentAlert) (cd now : ℚ) :
    deduplicate_alerts [a] recent cd now =
      if keyOf a ∈ recentKeys recent (now - cd) then [] else [a] := by
  unfold deduplicate_alerts
  split_ifs with h <;> simp [h]

/-- Cycles at times for which the key is already recent dispatch nothing
for that key and leave the history unchanged. -/
theorem runCycles_suppressed_middle (a : AlertEvent) (lineOk tgOk : AlertEvent → Bool)
    (H : List RecentAlert) (ms : List ℚ) (rest : List (ℚ × List AlertEvent))
    (hin : ∀ m ∈ ms, keyOf a ∈ recentKeys H (m - 60)) :
    runCycles H (ms.map (fun m => (m, [a])) ++ rest) lineOk tgOk =
      runCycles H rest lineOk tgOk := by
  induction ms with
  | nil => simp
  | cons m ms ih =>
    have hm := hin m (by simp)
    have hrec : ∀ m' ∈ ms, keyOf a ∈ recentKeys H (m' - 60) := by
      intro m' hm'
      exact hin m' (by simp [hm'])
    simp only [List.map_cons, List.cons_append]
    rw [show runCycles H ((m, [a]) :: (ms.map (fun m => (m, [a])) ++ rest)) lineOk tgOk =
      (let p := processCycle H m [a] lineOk tgOk
       let q := runCycles p.2 (ms.map (fun m => (m, [a])) ++ rest) lineOk tgOk
       (p.1 ++ q.1, q.2)) from rfl]
    have hproc : processCycle H m [a] lineOk tgOk = ([], H) := by
      unfold processCycle
      rw [dedup_singleton, if_pos hm]
      simp
    rw [hproc]
    simp only
    rw [ih hrec]
    simp

/-- C2: with a fresh history, a condition firing at `t0`, re-firing any
number of times strictly inside the 60-minute cooldown window, and firing
once more at `t1`, exactly one alert is dispatched in total when
`t1 < t0 + 60` and exactly two when the cooldown has elapsed
(`t1 >= t0 + 60`). -/
theorem C2_dedup_cooldown (a b : AlertEvent) (h0 : List RecentAlert) (t0 t1 : ℚ)
    (ms : List ℚ) (lineOk tgOk : AlertEvent → Bool)
    (hkey : keyOf b = keyOf a)
    (hfresh : keyOf a ∉ recentKeys h0 (t0 - 60))
    (hms : ∀ m ∈ ms, t0 ≤ m ∧ m < t0 + 60)
    (ht1 : t0 ≤ t1) :
    (runCycles h0 ((t0, [a]) :: (ms.map (fun m => (m, [a])) ++ [(t1, [b])]))
        lineOk tgOk).1.length =
      if t1 < t0 + 60 then 1 else 2 := by
  have hstep : processCycle h0 t0 [a] lineOk tgOk =
      ([a], h0 ++ [recordOf t0 lineOk tgOk a]) := by
    unfold processCycle
    rw [dedup_singleton, if_neg hfresh]
    simp
  have hrun : runCycles h0 ((t0, [a]) :: (ms.map (fun m => (m, [a])) ++ [(t1, [b])]))
      lineOk tgOk =
      (let p := processCycle h0 t0 [a] lineOk tgOk
       let q := runCycles p.2 (ms.map (fun m => (m, [a])) ++ [(t1, [b])]) lineOk tgOk
       (p.1 ++ q.1, q.2)) := rfl
  rw [hrun, hstep]
  simp only
  set H : List RecentAlert := h0 ++ [recordOf t0 lineOk tgOk a] with hH
  have hkeymem : ∀ c : ℚ, c < t0 → keyOf a ∈ recentKeys H c := by
    intro c hc
    rw [mem_recentKeys]
    refine ⟨recordOf t0 lineOk tgOk a, by simp [hH], rfl, t0, rfl, hc⟩
  have hmid : ∀ m ∈ ms, keyOf a ∈ recentKeys H (m - 60) := by
    intro m hm
    exact hkeymem (m - 60) (by linarith [(hms m hm).2])
  rw [runCycles_suppressed_middle a lineOk tgOk H ms [(t1, [b])] hmid]
  have hfinal : runCycles H [(t1, [b])] lineOk tgOk =
      (deduplicate_alerts [b] H 60 t1,
        H ++ (deduplicate_alerts [b] H 60 t1).map (recordOf t1 lineOk tgOk)) := by
    simp [runCycles, processCycle]
  rw [hfinal]
  rw [dedup_singleton]
  by_cases hwin : t1 < t0 + 60
  · rw [if_pos ?_, if_pos hwin]
    · simp
    · rw [hkey]
      exact hkeymem (t1 - 60) (by linarith)
  · rw [if_neg ?_, if_neg hwin]
    · simp
    · rw [hkey]
      intro hmem
      rw [hH, recentKeys_append, List.mem_append] at hmem
      rcases hmem with hmem | hmem
      · exact hfresh (recentKeys_mono h0 (t0 - 60) (t1 - 60) (by linarith) _ hmem)
      · rw [mem_recentKeys] at hmem
        obtain ⟨r, hr, _, ts, hts, hlt⟩ := hmem
        simp only [List.mem_singleton] at hr
        rw [hr] at hts
        simp [recordOf] at hts
        rw [← hts] at hlt
        have : t1 < t0 + 60 := by linarith
        exact hwin this

/-- Witness for C2: a defense-breach condition fires at minute 0, again
at minutes 10 and 20 (inside the window), then at minute 30: one alert
total; firing at minute 0 and minute 90 instead: two alerts total. -/
theorem C2_witness :
    (runCycles [] ((0, [scenarioAlert]) ::
        (([10, 20] : List ℚ).map (fun m => (m, [scenarioAlert])) ++
          [((30 : ℚ), [scenarioAlert])]))
      (fun _ => false) (fun _ => false)).1.length = 1 ∧
    (runCycles [] ((0, [scenarioAlert]) ::
        (([10, 20] : List ℚ).map (fun m => (m, [scenarioAlert])) ++
          [((90 : ℚ), [scenarioAlert])]))
      (fun _ => false) (fun _ => false)).1.length = 2 := by
  constructor
  · have := C2_dedup_cooldown scenarioAlert scenarioAlert [] 0 30 [10, 20]
      (fun _ => false) (fun _ => false) rfl (by simp [recentKeys])
      (by intro m hm; fin_cases hm <;> norm_num) (by norm_num)
    rw [if_pos (by norm_num)] at this
    exact this
  · have := C2_dedup_cooldown scenarioAlert scenarioAlert [] 0 90 [10, 20]
      (fun _ => false) (fun _ => false) rfl (by simp [recentKeys])
      (by intro m hm; fin_cases hm <;> norm_num) (by norm_num)
    rw [if_neg (by norm_num)] at this
    exact this

/-- C3: every alert surviving deduplication is recorded in the history
with the channels that succeeded (an empty list when every channel
failed), and any later firing of the same key within the cooldown is
suppressed regardless of the earlier delivery outcome. -/
theorem C3_record_despite_delivery_failure (h0 : List RecentAlert) (t0 : ℚ)
    (alerts : List AlertEvent) (lineOk tgOk lineOk2 tgOk2 : AlertEvent → Bool)
    (a : AlertEvent) (ha : a ∈ (processCycle h0 t0 alerts lineOk tgOk).1) :
    recordOf t0 lineOk tgOk a ∈ (processCycle h0 t0 alerts lineOk tgOk).2 ∧
    (lineOk a = false → tgOk a = false →
      (recordOf t0 lineOk tgOk a).notified_via = []) ∧
    (∀ t1 b, t0 ≤ t1 → t1 < t0 + 60 → keyOf b = keyOf a →
      (processCycle (processCycle h0 t0 alerts lineOk tgOk).2 t1 [b]
        lineOk2 tgOk2).1 = []) := by
  refine ⟨?_, ?_, ?_⟩
  · unfold processCycle at ha ⊢
    simp only [List.mem_append]
    right
    exact List.mem_map_of_mem _ ha
  · intro hl ht
    simp [recordOf, notifiedVia, hl, ht]
  · intro t1 b ht01 hwin hk
    unfold processCycle
    simp only
    rw [dedup_singleton, if_pos]
    rw [hk, mem_recentKeys]
    refine ⟨recordOf t0 lineOk tgOk a, ?_, rfl, t0, rfl, by linarith⟩
    unfold processCycle at ha
    simp only [List.mem_append]
    right
    exact List.mem_map_of_mem _ ha

/-- Witness for C3: with both channels failing, the surviving scenario
alert is recorded with an empty channel list and a re-firing 30 minutes
later is suppressed. -/
theorem C3_witness :
    recordOf 0 (fun _ => false) (fun _ => false) scenarioAlert ∈
      (processCycle [] 0 [scenarioAlert] (fun _ => false) (fun _ => false)).2 ∧
    (recordOf 0 (fun _ => false) (fun _ => false) scenarioAlert).notified_via = [] ∧
    (processCycle (processCycle [] 0 [scenarioAlert] (fun _ => false)
        (fun _ => false)).2 30 [scenarioAlert] (fun _ => false) (fun _ => false)).1 = [] := by
  obtain ⟨h1, h2, h3⟩ := C3_record_despite_delivery_failure [] 0 [scenarioAlert]
    (fun _ => false) (fun _ => false) (fun _ => false) (fun _ => false) scenarioAlert
    (by simp [processCycle, deduplicate_alerts, recentKeys])
  exact ⟨h1, h2 rfl rfl, h3 30 scenarioAlert (by norm_num) (by norm_num) rfl⟩

/-- C10: a history record whose `triggered_at` is missing or unparseable
is ignored by deduplication, so a new alert with the same key is
dispatched and recorded again rather than suppressed. -/
theorem C10_unparseable_timestamp_ignored (r : RecentAlert)
    (hr : r.triggered_at = none) :
    (∀ alerts rest cd now,
      deduplicate_alerts alerts (r :: rest) cd now =
        deduplicate_alerts alerts rest cd now) ∧
    (∀ alerts now lineOk tgOk,
      (processCycle [r] now alerts lineOk tgOk).1 = alerts ∧
      (processCycle [r] now alerts lineOk tgOk).2 =
        r :: alerts.map (recordOf now lineOk tgOk)) := by
  have hkeys : ∀ rest c, recentKeys (r :: rest) c = recentKeys rest c := by
    intro rest c
    unfold recentKeys
    rw [List.filter_cons_of_neg]
    rw [hr]
    simp
  refine ⟨?_, ?_⟩
  · intro alerts rest cd now
    unfold deduplicate_alerts
    rw [hkeys]
  · intro alerts now lineOk tgOk
    have hded : deduplicate_alerts alerts [r] 60 now = alerts := by
      unfold deduplicate_alerts
      rw [hkeys]
      simp [recentKeys]
    constructor
    · unfold processCycle
      simp only
      rw [hded]
    · unfold processCycle
      simp only
      rw [hded]
      rfl

/-- Witness for C10: a record of the same key with a missing timestamp
does not suppress the scenario alert: it is dispatched and recorded. -/
theorem C10_witness :
    (processCycle [staleRecord] 0 [scenarioAlert]
      (fun _ => false) (fun _ => false)).1 = [scenarioAlert] := by
  have := C10_unparseable_timestamp_ignored staleRecord rfl
  exact (this.2 [scenarioAlert] 0 (fun _ => false) (fun _ => false)).1

/-- Counterexample to C4 as stated: for the US exchange-region a scan
whose required set has both an added and a removed delta invokes no
subscribe and no unsubscribe callback at all (deltas are only tracked),
contradicting the claim that every exchange-region gets delta callbacks. -/
theorem C4_counterexample :
    (scan { current_tw := ∅, current_us := {"A"} } ∅ {"B"}).us_subscribe_calls = [] ∧
    (scan { current_tw := ∅, current_us := {"A"} } ∅ {"B"}).us_unsubscribe_calls = [] ∧
    (({"B"} : Finset String) \ {"A"}) = {"B"} ∧
    (({"A"} : Finset String) \ {"B"}) = {"A"} ∧
    ([] : List (Finset String)) ≠ [({"B"} : Finset String)] := by
  refine ⟨rfl, rfl, by decide, by decide, by decide⟩

/-- C4 (amended): for the Taiwan exchange-region one reconciliation pass
calls subscribe with exactly `new \ old` and unsubscribe with exactly
`old \ new` (each once, only when non-empty), no call mentions a ticker
in the intersection, and the state becomes the required sets; for the US
exchange-region no callback is invoked. -/
theorem C4_tw_delta_exact (st : ScanState) (tw_req us_req : Finset String) :
    ((scan st tw_req us_req).tw_subscribe_calls =
      if (tw_req \ st.current_tw).Nonempty then [tw_req \ st.current_tw] else []) ∧
    ((scan st tw_req us_req).tw_unsubscribe_calls =
      if (st.current_tw \ tw_req).Nonempty then [st.current_tw \ tw_req] else []) ∧
    (∀ x ∈ st.current_tw ∩ tw_req,
      (∀ c ∈ (scan st tw_req us_req).tw_subscribe_calls, x ∉ c) ∧
      (∀ c ∈ (scan st tw_req us_req).tw_unsubscribe_calls, x ∉ c)) ∧
    ((scan st tw_req us_req).us_subscribe_calls = [] ∧
      (scan st tw_req us_req).us_unsubscribe_calls = []) ∧
    (scan st tw_req us_req).state = { current_tw := tw_req, current_us := us_req } := by
  refine ⟨rfl, rfl, ?_, ⟨rfl, rfl⟩, rfl⟩
  intro x hx
  rw [Finset.mem_inter] at hx
  constructor
  · intro c hc
    unfold scan at hc
    simp only at hc
    split_ifs at hc with h
    · simp only [List.mem_singleton] at hc
      rw [hc]
      rw [Finset.mem_sdiff]
      rintro ⟨-, habs⟩
      exact habs hx.1
    · simp at hc
  · intro c hc
    unfold scan at hc
    simp only at hc
    split_ifs at hc with h
    · simp only [List.mem_singleton] at hc
      rw [hc]
      rw [Finset.mem_sdiff]
      rintro ⟨-, habs⟩
      exact habs hx.2
    · simp at hc

/-- Witness for C4 (amended): old watch set `{A,B,C}` and new watch set
`{B,C,D}` produce exactly `subscribe({D})` and `unsubscribe({A})`, and no
call mentions `B`. -/
theorem C4_witness :
    (scan { current_tw := {"A", "B", "C"}, current_us := ∅ }
        {"B", "C", "D"} ∅).tw_subscribe_calls = [{"D"}] ∧
    (scan { current_tw := {"A", "B", "C"}, current_us := ∅ }
        {"B", "C", "D"} ∅).tw_unsubscribe_calls = [{"A"}] ∧
    (∀ c ∈ (scan { current_tw := {"A", "B", "C"}, current_us := ∅ }
        {"B", "C", "D"} ∅).tw_subscribe_calls, "B" ∉ c) ∧
    (∀ c ∈ (scan { current_tw := {"A", "B", "C"}, current_us := ∅ }
        {"B", "C", "D"} ∅).tw_unsubscribe_calls, "B" ∉ c) := by
  obtain ⟨h1, h2, h3, -, -⟩ := C4_tw_delta_exact
    { current_tw := {"A", "B", "C"}, current_us := ∅ } {"B", "C", "D"} ∅
  have hB := h3 "B" (by decide)
  refine ⟨?_, ?_, hB.1, hB.2⟩
  · rw [h1]
    rw [if_pos (by decide)]
    have : ({"B", "C", "D"} : Finset String) \ {"A", "B", "C"} = {"D"} := by decide
    rw [this]
  · rw [h2]
    rw [if_pos (by decide)]
    have : ({"A", "B", "C"} : Finset String) \ {"B", "C", "D"} = {"A"} := by decide
    rw [this]

/-- Counterexample to C5 as stated: after two failed Finnhub connection
cycles the backoff has grown to 4 s, yet a bare socket-open event — with
no data message anywhere in the trace — resets it to the base delay. -/
theorem C5_counterexample :
    (finnhubRun finnhubInit [FinnhubEvent.closeEv, FinnhubEvent.closeEv]).1.reconnect_delay = 4 ∧
    (finnhubRun finnhubInit [FinnhubEvent.closeEv, FinnhubEvent.closeEv,
        FinnhubEvent.openEv]).1.reconnect_delay = RECONNECT_BASE_DELAY ∧
    FinnhubEvent.dataMessage ∉
      [FinnhubEvent.closeEv, FinnhubEvent.closeEv, FinnhubEvent.openEv] ∧
    RECONNECT_BASE_DELAY ≠ (4 : ℚ) := by
  refine ⟨?_, rfl, by decide, by norm_num [RECONNECT_BASE_DELAY]⟩
  norm_num [finnhubRun, finnhubStep, finnhubInit, RECONNECT_BASE_DELAY,
    RECONNECT_MAX_DELAY]

/-- C5 (amended): the Fugle client resets its backoff only after a
validated data message — connection-open leaves the delay unchanged and
no non-data event ever lowers it — while the Finnhub client resets its
backoff to base on the socket-open event and its message handler never
touches the backoff. -/
theorem C5_backoff_reset_policy (r : ℚ) (s : FugleState) (s2 : FinnhubState) :
    ((fugleStep r s FugleEvent.connectEv).1.reconnect_delay = s.reconnect_delay) ∧
    (RECONNECT_BASE_DELAY < s.reconnect_delay →
      (fugleStep r s FugleEvent.dataMessage).1.reconnect_delay = RECONNECT_BASE_DELAY) ∧
    (∀ e, e ≠ FugleEvent.dataMessage → 0 ≤ s.reconnect_delay →
      s.reconnect_delay ≤ r →
      s.reconnect_delay ≤ (fugleStep r s e).1.reconnect_delay) ∧
    ((finnhubStep s2 FinnhubEvent.openEv).1.reconnect_delay = RECONNECT_BASE_DELAY) ∧
    ((finnhubStep s2 FinnhubEvent.dataMessage).1 = s2) := by
  refine ⟨rfl, ?_, ?_, rfl, rfl⟩
  · intro h
    simp [fugleStep, h]
  · intro e he h0 hr
    cases e with
    | connectEv => exact le_of_eq rfl
    | dataMessage => exact absurd rfl he
    | disconnectEv =>
      simp only [fugleStep]
      exact le_min (by linarith) hr
    | maxConnError =>
      simp only [fugleStep]
      exact le_max_left _ _

/-- Witness for C5 (amended): from a Fugle delay of 4, connection-open
keeps 4, a data message resets to 1, a disconnect keeps the used delay at
least 4; a Finnhub open from delay 4 resets to 1 and a data message
changes nothing. -/
theorem C5_witness :
    (fugleStep 130 { reconnect_delay := 4, connected := false }
      FugleEvent.connectEv).1.reconnect_delay = 4 ∧
    (fugleStep 130 { reconnect_delay := 4, connected := false }
      FugleEvent.dataMessage).1.reconnect_delay = RECONNECT_BASE_DELAY ∧
    (4 : ℚ) ≤ (fugleStep 130 { reconnect_delay := 4, connected := false }
      FugleEvent.disconnectEv).1.reconnect_delay ∧
    (finnhubStep { reconnect_delay := 4, connected := false }
      FinnhubEvent.openEv).1.reconnect_delay = RECONNECT_BASE_DELAY ∧
    (finnhubStep { reconnect_delay := 4, connected := false }
      FinnhubEvent.dataMessage).1 = { reconnect_delay := 4, connected := false } := by
  obtain ⟨h1, h2, h3, h4, h5⟩ := C5_backoff_reset_policy 130
    { reconnect_delay := 4, connected := false }
    { reconnect_delay := 4, connected := false }
  exact ⟨h1, h2 (by norm_num [RECONNECT_BASE_DELAY]),
    h3 FugleEvent.disconnectEv (by decide) (by norm_num) (by norm_num), h4, h5⟩

theorem fugleRun_replicate (c : ℚ) :
    ∀ (n : ℕ) (d : ℚ) (b : Bool),
      (fugleRun c { reconnect_delay := d, connected := b }
        (List.replicate n FugleEvent.disconnectEv)).2 = scheduleDelays c d n := by
  intro n
  induction n with
  | zero => intro d b; rfl
  | succ n ih =>
    intro d b
    rw [List.replicate_succ]
    show (d :: (fugleRun c { reconnect_delay := min (d * 2) c, connected := false }
      (List.replicate n FugleEvent.disconnectEv)).2 : List ℚ) = _
    rw [ih]
    rfl

theorem finnhubRun_replicate :
    ∀ (n : ℕ) (d : ℚ) (b : Bool),
      (finnhubRun { reconnect_delay := d, connected := b }
        (List.replicate n FinnhubEvent.closeEv)).2 =
        scheduleDelays RECONNECT_MAX_DELAY d n := by
  intro n
  induction n with
  | zero => intro d b; rfl
  | succ n ih =>
    intro d b
    rw [List.replicate_succ]
    show (d :: (finnhubRun
      { reconnect_delay := min (d * 2) RECONNECT_MAX_DELAY, connected := false }
      (List.replicate n FinnhubEvent.closeEv)).2 : List ℚ) = _
    rw [ih]
    rfl

theorem scheduleDelays_closed (c : ℚ) (hc : 0 < c) :
    ∀ (n : ℕ) (d : ℚ), 0 < d → d ≤ c →
      scheduleDelays c d n = (List.range n).map (fun k => min (d * 2 ^ k) c) := by
  intro n
  induction n with
  | zero => intro d _ _; rfl
  | succ n ih =>
    intro d hd hdc
    rw [scheduleDelays, List.range_succ_eq_map, List.map_cons, List.map_map]
    congr 1
    · simp [min_eq_left hdc]
    · rw [ih (min (d * 2) c) (lt_min (by linarith) hc) (min_le_right _ _)]
      apply List.map_congr_left
      intro k _
      show min (min (d * 2) c * 2 ^ k) c = min (d * 2 ^ (k + 1)) c
      have h2k : (0 : ℚ) < 2 ^ k := by positivity
      have hck : c ≤ c * 2 ^ k :=
        le_mul_of_one_le_right hc.le (one_le_pow₀ (by norm_num))
      rw [min_mul_of_nonneg _ _ h2k.le, min_assoc, min_eq_right hck]
      congr 1
      ring

/-- C6: for either client failing N times in a row with no intervening
data message and no rate-limit-class error, the delays used for the 1st,
2nd, ..., Nth reconnect attempts are exactly
`min(base * 2^(k-1), ceiling)` — for Fugle the ceiling is the client's
effective maximum `max(reconnect_max_delay, 120)`, for Finnhub it is 60. -/
theorem C6_backoff_monotonicity (r : ℚ) (n : ℕ) :
    (fugleRun (fugleReconnectMax r) fugleInit
        (List.replicate n FugleEvent.disconnectEv)).2 =
      (List.range n).map (fun k =>
        min (RECONNECT_BASE_DELAY * 2 ^ k) (fugleReconnectMax r)) ∧
    (finnhubRun finnhubInit (List.replicate n FinnhubEvent.closeEv)).2 =
      (List.range n).map (fun k =>
        min (RECONNECT_BASE_DELAY * 2 ^ k) RECONNECT_MAX_DELAY) := by
  have hbase : (0 : ℚ) < RECONNECT_BASE_DELAY := by norm_num [RECONNECT_BASE_DELAY]
  constructor
  · have hc : (0 : ℚ) < fugleReconnectMax r := by
      have : (120 : ℚ) ≤ fugleReconnectMax r := le_max_right _ _
      linarith
    have hbc : RECONNECT_BASE_DELAY ≤ fugleReconnectMax r := by
      have : (120 : ℚ) ≤ fugleReconnectMax r := le_max_right _ _
      norm_num [RECONNECT_BASE_DELAY]
      linarith
    rw [show fugleInit =
      { reconnect_delay := RECONNECT_BASE_DELAY, connected := false } from rfl]
    rw [fugleRun_replicate]
    exact scheduleDelays_closed _ hc n _ hbase hbc
  · rw [show finnhubInit =
      { reconnect_delay := RECONNECT_BASE_DELAY, connected := false } from rfl]
    rw [finnhubRun_replicate]
    exact scheduleDelays_closed _ (by norm_num [RECONNECT_MAX_DELAY]) n _ hbase
      (by norm_num [RECONNECT_BASE_DELAY, RECONNECT_MAX_DELAY])

theorem foldl_latest_of_invalid (trades : List FinnhubTrade)
    (h : ∀ t ∈ trades, ∀ p, t.p = some p → p ≤ 0) :
    ∀ acc, trades.foldl finnhubUpdateLatest acc = acc := by
  induction trades with
  | nil => intro acc; rfl
  | cons t ts ih =>
    intro acc
    rw [List.foldl_cons]
    have hstep : finnhubUpdateLatest acc t = acc := by
      unfold finnhubUpdateLatest
      cases hp : t.p with
      | none => rfl
      | some p =>
        have hle := h t (by simp) p hp
        have hcond : ¬(t.s ≠ "" ∧ p ≠ 0 ∧ 0 < p) := by
          rintro ⟨-, -, hpos⟩
          linarith
        show (if t.s ≠ "" ∧ p ≠ 0 ∧ 0 < p then insertLatest acc t.s p else acc) = acc
        rw [if_neg hcond]
    rw [hstep]
    exact ih (fun t' ht' => h t' (by simp [ht'])) acc

theorem mem_insertLatest :
    ∀ (acc : List (String × ℚ)) (sym : String) (p : ℚ) (kv : String × ℚ),
      kv ∈ insertLatest acc sym p → kv = (sym, p) ∨ kv ∈ acc := by
  intro acc
  induction acc with
  | nil =>
    intro sym p kv h
    simp [insertLatest] at h
    left
    simp [h]
  | cons hd tl ih =>
    intro sym p kv h
    unfold insertLatest at h
    split_ifs at h with hk
    · rcases List.mem_cons.mp h with h | h
      · left; rw [h, hk]
      · right; exact List.mem_cons_of_mem _ h
    · rcases List.mem_cons.mp h with h | h
      · right; rw [h]; exact List.mem_cons_self _ _
      · rcases ih sym p kv h with h | h
        · left; exact h
        · right; exact List.mem_cons_of_mem _ h

theorem mem_foldl_latest :
    ∀ (trades : List FinnhubTrade) (acc : List (String × ℚ)) (kv : String × ℚ),
      kv ∈ trades.foldl finnhubUpdateLatest acc →
      kv ∈ acc ∨ ∃ t ∈ trades, t.s = kv.1 ∧ t.p = some kv.2 ∧ 0 < kv.2 := by
  intro trades
  induction trades with
  | nil =>
    intro acc kv h
    left
    exact h
  | cons t ts ih =>
    intro acc kv h
    rw [List.foldl_cons] at h
    rcases ih _ kv h with hmem | ⟨t', ht', hrest⟩
    · unfold finnhubUpdateLatest at hmem
      cases hp : t.p with
      | none =>
        rw [hp] at hmem
        left; exact hmem
      | some p =>
        rw [hp] at hmem
        have hmem2 : kv ∈ (if t.s ≠ "" ∧ p ≠ 0 ∧ 0 < p then
            insertLatest acc t.s p else acc) := hmem
        clear hmem
        rename' hmem2 => hmem
        split_ifs at hmem with hcond
        · rcases mem_insertLatest acc t.s p kv hmem with heq | hacc
          · right
            refine ⟨t, by simp, ?_, ?_, ?_⟩
            · rw [heq]
            · rw [heq, hp]
            · rw [heq]; exact hcond.2.2
          · left; exact hacc
        · left; exact hmem
    · right
      exact ⟨t', List.mem_cons_of_mem _ ht', hrest⟩

/-- C7: neither client writes anything for a message without a valid
trade price. For Fugle: a message whose price extraction fails, or yields
a non-positive price, produces no write; any produced write carries
exactly the extracted (positive) trade price; and the handler's output is
independent of the bid/ask fields, so no midpoint is ever written. For
Finnhub: a trade batch with only missing or non-positive prices produces
no write, and every written price is a positive price of some trade. -/
theorem C7_no_midpoint_no_invalid_write :
    (∀ m : FugleMsg, fugleExtractPrice m = none → fugle_handle_message m = none) ∧
    (∀ (m : FugleMsg) (p : ℚ), fugleExtractPrice m = some p → p ≤ 0 →
      fugle_handle_message m = none) ∧
    (∀ (m : FugleMsg) (u : MarketUpsert), fugle_handle_message m = some u →
      fugleExtractPrice m = some u.current_price ∧ 0 < u.current_price ∧
        u.realtime_price = u.current_price) ∧
    (∀ (m : FugleMsg) (b1 a1 b2 a2 : Option ℚ),
      fugle_handle_message
        { m with bid := b1, ask := a1,
                 data := { m.data with bid := b2, ask := a2 } } =
        fugle_handle_message m) ∧
    (∀ (mo : Bool) (ty : String) (trades : List FinnhubTrade),
      (∀ t ∈ trades, ∀ p, t.p = some p → p ≤ 0) →
      finnhub_on_message mo ty trades = []) ∧
    (∀ (mo : Bool) (ty : String) (trades : List FinnhubTrade),
      ∀ u ∈ finnhub_on_message mo ty trades,
        ∃ t ∈ trades, t.s = u.ticker ∧ t.p = some u.current_price ∧
          0 < u.current_price ∧ u.realtime_price = u.current_price) := by
  refine ⟨?_, ?_, ?_, ?_, ?_, ?_⟩
  · intro m hE
    unfold fugle_handle_message
    rw [hE]
    split_ifs <;> rfl
  · intro m p hE hp
    unfold fugle_handle_message
    rw [hE]
    split_ifs <;> simp [hp]
  · intro m u h
    unfold fugle_handle_message at h
    split_ifs at h with h1 h2
    cases hE : fugleExtractPrice m with
    | none => rw [hE] at h; exact absurd h (by simp)
    | some p =>
      rw [hE] at h
      have h' : (if p ≤ 0 then (none : Option MarketUpsert)
          else some (MarketUpsert.mk (fugleExtractSymbol m) "TPE" p p "fugle_ws")) =
          some u := h
      clear h
      split_ifs at h' with hp
      simp only [Option.some.injEq] at h'
      subst h'
      refine ⟨rfl, ?_, rfl⟩
      show (0 : ℚ) < p
      exact not_le.mp hp
  · intro m b1 a1 b2 a2
    rfl
  · intro mo ty trades h
    unfold finnhub_on_message
    split_ifs <;>
      first
        | rfl
        | (rw [foldl_latest_of_invalid trades h]; rfl)
  · intro mo ty trades u hu
    unfold finnhub_on_message at hu
    split_ifs at hu with h1 h2
    · exact absurd hu (List.not_mem_nil u)
    swap
    · exact absurd hu (List.not_mem_nil u)
    rw [List.mem_map] at hu
    obtain ⟨kv, hkv, hu⟩ := hu
    rcases mem_foldl_latest trades [] kv hkv with habs | ⟨t, ht, hs, hp, hpos⟩
    · exact absurd habs (by simp)
    · refine ⟨t, ht, ?_, ?_, ?_, ?_⟩
      · rw [hs, ← hu]
      · rw [hp, ← hu]
      · rw [← hu]; exact hpos
      · rw [← hu]

/-- Witness for C7: a Fugle message carrying only bid/ask produces no
write, and its handling equals that of the same message however bid/ask
are set; Finnhub trades with a missing price and a zero price produce no
write during market hours. -/
theorem C7_witness :
    fugle_handle_message bidAskOnlyMsg = none ∧
    fugle_handle_message { bidAskOnlyMsg with bid := some 100, ask := some 101, data := { bidAskOnlyMsg.data with bid := none, ask := none } } =
      fugle_handle_message bidAskOnlyMsg ∧
    finnhub_on_message true "trade" invalidTrades = [] := by
  obtain ⟨h1, _, _, h4, h5, _⟩ := C7_no_midpoint_no_invalid_write
  refine ⟨h1 bidAskOnlyMsg rfl, h4 bidAskOnlyMsg (some 100) (some 101) none none, ?_⟩
  refine h5 true "trade" invalidTrades ?_
  intro t ht p hp
  unfold invalidTrades at ht
  rcases List.mem_cons.mp ht with h | h
  · rw [h] at hp
    simp at hp
  · simp only [List.mem_singleton] at h
    rw [h] at hp
    simp at hp
    rw [← hp]

/-- Counterexample to C9 as stated: the alert evaluator does not update
the watermark before TP/SL evaluation — on a holding with cost 100,
stored watermark 200 and observed price 300 (a new high) the code fires a
take-profit alert with trigger `max(110, 200*0.9) = 180` computed from
the stale watermark, while the claim's update-first evaluator would use
`max(110, 300*0.9) = 270`. -/
theorem C9_counterexample :
    (check_portfolio_alerts c9Prices [c9Holding]).map (fun a => a.trigger_price) =
      [180] ∧
    (specCheckPortfolioAfterHwmUpdate c9Prices [c9Holding]).map
      (fun a => a.trigger_price) = [270] ∧
    (180 : ℚ) ≠ 270 := by
  refine ⟨?_, ?_, by norm_num⟩
  · norm_num [check_portfolio_alerts, aggregateHoldings, insertHolding, newAgg,
      addToAgg, portfolioAlertsForAgg, calculate_tp_sl, pyOr, c9Holding, c9Prices,
      tpAlertEvent, slAlertEvent]
    decide
  · norm_num [specCheckPortfolioAfterHwmUpdate, specHwmUpdateHolding, hwmStep,
      check_portfolio_alerts, aggregateHoldings, insertHolding, newAgg,
      addToAgg, portfolioAlertsForAgg, calculate_tp_sl, pyOr, c9Holding, c9Prices,
      tpAlertEvent, slAlertEvent]
    decide

/-- C9 (amended): the watermark update applied per observed price is
monotone — the effective watermark never decreases — and after any
sequence of observed prices the effective watermark equals the running
maximum of the initial cost and the observed prices (the initial cost
when never exceeded); the alert evaluator itself evaluates TP/SL against
the stored watermark without updating it (see the counterexample). -/
theorem C9_watermark_monotone_max (cost : ℚ) (hc : 0 < cost) :
    (∀ (hwm : Option ℚ) (p : ℚ), 0 < effHwm cost hwm →
      effHwm cost hwm ≤ effHwm cost (hwmStep cost hwm p)) ∧
    (∀ (ps : List ℚ) (hwm : Option ℚ), 0 < effHwm cost hwm →
      effHwm cost (hwmAfter cost hwm ps) = ps.foldl max (effHwm cost hwm)) ∧
    (∀ ps : List ℚ, effHwm cost (hwmAfter cost none ps) = ps.foldl max cost) := by
  have hsteq : ∀ (hwm : Option ℚ) (p : ℚ), 0 < effHwm cost hwm →
      effHwm cost (hwmStep cost hwm p) = max (effHwm cost hwm) p := by
    intro hwm p hpos
    unfold hwmStep
    split_ifs with hlt
    · have hlt2 : effHwm cost hwm < p := hlt
      have hp : (0 : ℚ) < p := lt_trans hpos hlt2
      have h1 : effHwm cost (some p) = p := by
        show (if p = 0 then cost else p) = p
        rw [if_neg (by linarith)]
      rw [h1, max_eq_right (le_of_lt hlt2)]
    · have hlt2 : ¬ effHwm cost hwm < p := hlt
      rw [max_eq_left (le_of_not_lt hlt2)]
  have hfold : ∀ (ps : List ℚ) (hwm : Option ℚ), 0 < effHwm cost hwm →
      effHwm cost (hwmAfter cost hwm ps) = ps.foldl max (effHwm cost hwm) := by
    intro ps
    induction ps with
    | nil => intro hwm _; rfl
    | cons p ps ih =>
      intro hwm hpos
      unfold hwmAfter
      rw [List.foldl_cons, List.foldl_cons]
      have hnext : 0 < effHwm cost (hwmStep cost hwm p) := by
        rw [hsteq hwm p hpos]
        exact lt_of_lt_of_le hpos (le_max_left _ _)
      have := ih (hwmStep cost hwm p) hnext
      unfold hwmAfter at this
      rw [this, hsteq hwm p hpos]
  refine ⟨?_, hfold, ?_⟩
  · intro hwm p hpos
    rw [hsteq hwm p hpos]
    exact le_max_left _ _
  · intro ps
    have h0 : effHwm cost (none : Option ℚ) = cost := rfl
    rw [hfold ps none (by rw [h0]; exact hc), h0]

/-- Witness for C9 (amended): from cost 100 and no stored watermark, the
observed prices 150, 120, 200 leave the effective watermark at 200 (the
maximum), and a single step never lowers it. -/
theorem C9_witness :
    effHwm 100 (hwmAfter 100 none [150, 120, 200]) =
      ([150, 120, 200] : List ℚ).foldl max 100 ∧
    effHwm 100 (some 200) ≤ effHwm 100 (hwmStep 100 (some 200) 120) := by
  obtain ⟨hmono, -, hmax⟩ := C9_watermark_monotone_max 100 (by norm_num)
  exact ⟨hmax [150, 120, 200], hmono (some 200) 120 (by norm_num [effHwm, pyOr])⟩

end Tracker
